import Mathlib

/-!
Shallow embedding of the indexed lazy texture-snapshot loader
(`android/snapshot/TextureLoader.cpp`).

The loader owns a seekable byte stream, builds an in-memory index
(texture_id ↦ file_offset) once in `start`/`readIndex`, and serves
`loadTexture` requests by seeking the shared stream and invoking a
caller-supplied decode callback.

Machine integers are modelled as `Nat`; the big-endian readers reduce
their byte strings modulo the word size by construction, so no separate
truncation step is needed.
-/

namespace TextureSnap

/-- Byte stream. Modelled from the spec: the concrete `StdioStream` /
`android::base::Stream` classes are not part of this repository's sources;
the spec's SeekableStream contract gives absolute `seek`, big-endian
fixed-width reads and an error indicator (`ferror`). A read past the end
of the data delivers filler `0` bytes (the underlying `fread` short-reads
and the code never checks how many bytes arrived). -/
structure SStream where
  data : List Nat
  pos : Nat
  err : Bool
deriving Repr, DecidableEq

/-- Read one byte at the current position and advance; past the end the
filler byte `0` is delivered. -/
def readByte (s : SStream) : Nat × SStream :=
  (s.data.getD s.pos 0, { s with pos := s.pos + 1 })

/-- Read `n` consecutive bytes. -/
def readBytes : Nat → SStream → List Nat × SStream
  | 0, s => ([], s)
  | n + 1, s =>
    let (b, s1) := readByte s
    let (bs, s2) := readBytes n s1
    (b :: bs, s2)

/-- Big-endian value of a byte string. -/
def beVal (bs : List Nat) : Nat :=
  bs.foldl (fun a b => a * 256 + b) 0

/-- Model of `Stream::getBe32`: 4-byte big-endian read. -/
def getBe32 (s : SStream) : Nat × SStream :=
  let (bs, s1) := readBytes 4 s
  (beVal bs, s1)

/-- Model of `Stream::getBe64`: 8-byte big-endian read. -/
def getBe64 (s : SStream) : Nat × SStream :=
  let (bs, s1) := readBytes 8 s
  (beVal bs, s1)

/-- Model of `fseek(f, off, SEEK_SET)`: absolute seek. -/
def sseek (s : SStream) (off : Nat) : SStream :=
  { s with pos := off }

/-- Model of `mIndex.count(k)` for the loader's `std::unordered_map`, as an
association list: does some entry carry key `k`? -/
def containsKey (idx : List (Nat × Nat)) (k : Nat) : Bool :=
  idx.any (fun p => p.1 == k)

/-- Model of `mIndex.emplace(k, v)`: C++ `emplace` inserts only when the key is
absent; an existing entry is left untouched. -/
def emplace (idx : List (Nat × Nat)) (k v : Nat) : List (Nat × Nat) :=
  if containsKey idx k then idx else idx ++ [(k, v)]

/-- Lookup of a present key (`mIndex[k]` after a successful `count`). -/
def idxLookup (idx : List (Nat × Nat)) (k : Nat) : Option Nat :=
  (idx.find? (fun p => p.1 == k)).map (fun p => p.2)

/-- State of a `TextureLoader`: the owned stream, the index map, and the
`mStarted` / `mHasError` flags. The member types and their `false` initial
values come from the class declaration, which lives in the (absent) header;
the `.cpp` uses them as plain bools. -/
structure TextureLoader where
  mStream : SStream
  mIndex : List (Nat × Nat)
  mStarted : Bool
  mHasError : Bool
deriving Repr, DecidableEq

/-- Constructor `TextureLoader(StdioStream&&)`: takes the stream, performs
no I/O; flags start clear and the index empty. -/
def mkLoader (s : SStream) : TextureLoader :=
  ⟨s, [], false, false⟩

/-- Record-reading loop of `readIndex`: `texCount` iterations of
`getBe32` (texture id), `getBe64` (file offset), `mIndex.emplace`. -/
def readRecords : Nat → List (Nat × Nat) → SStream → List (Nat × Nat) × SStream
  | 0, idx, s => (idx, s)
  | n + 1, idx, s =>
    let (tex, s1) := getBe32 s
    let (filePos, s2) := getBe64 s1
    readRecords n (emplace idx tex filePos) s2

/-- Model of `TextureLoader::readIndex`: read the 8-byte trailer pointer, seek to
it, read the 4-byte version (must be 1), then the 4-byte count and the
records. `mIndex.reserve` is a capacity hint with no semantic effect; the
`SNAPSHOT_PROFILE` instrumentation is compiled out. -/
def readIndex (l : TextureLoader) : Bool × TextureLoader :=
  let (indexPos, s1) := getBe64 l.mStream
  let s2 := sseek s1 indexPos
  let (version, s3) := getBe32 s2
  if version ≠ 1 then
    (false, { l with mStream := s3 })
  else
    let (texCount, s4) := getBe32 s3
    let (idx, s5) := readRecords texCount l.mIndex s4
    (true, { l with mStream := s5, mIndex := idx })

/-- Model of `TextureLoader::start`: on a repeat call return `!mHasError` without
touching the stream; otherwise set `mStarted`, run `readIndex`, and set
`mHasError` on failure. -/
def start (l : TextureLoader) : Bool × TextureLoader :=
  if l.mStarted then
    (!l.mHasError, l)
  else
    let (res, l1) := readIndex { l with mStarted := true }
    if res then (true, l1) else (false, { l1 with mHasError := true })

/-- Observable events of one `loadTexture` call, in order: mutex
acquisition by `AutoLock`, the `fseek` (with its target offset), the
callback invocation (with the stream position it observes), and the mutex
release when the scope ends. -/
inductive LoadEvent where
  | lockAcquire : LoadEvent
  | seekTo : Nat → LoadEvent
  | callbackAt : Nat → LoadEvent
  | lockRelease : LoadEvent
deriving Repr, DecidableEq

/-- How a `loadTexture` call ends: `returned` is the normal (void) return;
`assertFailed` is the abort of `assert(mIndex.count(texId))` on a key that
is not in the index. -/
inductive LoadOutcome where
  | returned : LoadOutcome
  | assertFailed : LoadOutcome
deriving Repr, DecidableEq

/-- Model of `TextureLoader::loadTexture`: under the lock, assert the key is
present, seek to its offset, invoke the callback, and set `mHasError` if
`ferror` reports a stream error afterwards. The callback is an opaque
stream transformer. The result carries the outcome, the new loader state,
and the event trace of the call. -/
def loadTexture (l : TextureLoader) (texId : Nat) (loader : SStream → SStream) :
    LoadOutcome × TextureLoader × List LoadEvent :=
  if containsKey l.mIndex texId then
    let off := (idxLookup l.mIndex texId).getD 0
    let s1 := sseek l.mStream off
    let s2 := loader s1
    (LoadOutcome.returned,
     { l with mStream := s2, mHasError := l.mHasError || s2.err },
     [LoadEvent.lockAcquire, LoadEvent.seekTo off,
      LoadEvent.callbackAt s1.pos, LoadEvent.lockRelease])
  else
    (LoadOutcome.assertFailed, l, [LoadEvent.lockAcquire])

/-- Big-endian encoder for the documented index format (`w` bytes). -/
def encodeBe : Nat → Nat → List Nat
  | 0, _ => []
  | w + 1, n => encodeBe w (n / 256) ++ [n % 256]

/-- One index record: 4-byte texture id, 8-byte file offset. -/
def encodeRecord (r : Nat × Nat) : List Nat :=
  encodeBe 4 r.1 ++ encodeBe 8 r.2

/-- All index records, in stream order. -/
def encodeRecords : List (Nat × Nat) → List Nat
  | [] => []
  | r :: rs => encodeRecord r ++ encodeRecords rs

/-- A complete backing stream in the documented format: the 8-byte trailer
pointer at the read position, arbitrary payload bytes `pad`, and at the
pointed-to offset the index section (version, count, records). -/
def mkInput (pad : List Nat) (v : Nat) (rs : List (Nat × Nat)) : SStream :=
  { data := encodeBe 8 (8 + pad.length) ++ pad ++
      (encodeBe 4 v ++ encodeBe 4 rs.length ++ encodeRecords rs),
    pos := 0,
    err := false }

/-- Result of running the `mIndex.emplace` loop over a record list,
starting from index `idx`. -/
def buildIndex (idx : List (Nat × Nat)) (rs : List (Nat × Nat)) : List (Nat × Nat) :=
  rs.foldl (fun i r => emplace i r.1 r.2) idx

/-- Loader state `Ready` of the spec: initialization has run and recorded
no error. -/
@[reducible]
def Ready (l : TextureLoader) : Prop :=
  l.mStarted = true ∧ l.mHasError = false

/-- A sequence of `loadTexture` calls (id and callback each), threaded
through the loader state; outcomes and traces are discarded. -/
def runLoads (l : TextureLoader) (ops : List (Nat × (SStream → SStream))) : TextureLoader :=
  ops.foldl (fun acc op => (loadTexture acc op.1 op.2).2.1) l

/-- Decode callback that reads nothing and reports a stream error, as a
failing decoder would through the `ferror` channel. -/
def setErr : SStream → SStream :=
  fun s => { s with err := true }

/-- A small well-formed snapshot stream: version 1, two records. -/
def demoInput : SStream :=
  mkInput [] 1 [(7, 100), (9, 200)]

/-- The loader after successfully initializing on `demoInput`. -/
def demoLoader : TextureLoader :=
  (start (mkLoader demoInput)).2

/-- The loader after a failed initialization (version field 2). -/
def failedLoader : TextureLoader :=
  (start (mkLoader (mkInput [] 2 [(7, 100)]))).2

/-- A truncated stream: the trailer pointer and a version-1 section header
declaring two records, but bytes for only one record present. -/
def truncInput : SStream :=
  { data := encodeBe 8 8 ++ encodeBe 4 1 ++ encodeBe 4 2 ++
      encodeBe 4 7 ++ encodeBe 8 100,
    pos := 0,
    err := false }

/-! Interleaving model of two concurrent `loadTexture` calls on one loader.
Each thread runs the body of `loadTexture` as four atomic steps taken from
the source: acquire `mLock` (the `AutoLock` constructor), `fseek`, invoke
the callback, release the lock (the `AutoLock` destructor at scope exit).
The mutex blocks an acquisition while any thread holds it. -/

/-- Shared state of the two-thread interleaving: who holds `mLock`, and
each thread's program counter in its `loadTexture` body (0 = before the
lock, 1 = holding the lock before the seek, 2 = after the seek, 3 = after
the callback returned, 4 = lock released, call done). -/
structure ConcState where
  lockOwner : Option Bool
  pcF : Nat
  pcT : Nat
deriving Repr, DecidableEq

/-- Program counter of thread `t` (threads are named by a `Bool`). -/
def pcOf (s : ConcState) (t : Bool) : Nat :=
  if t then s.pcT else s.pcF

/-- Update the program counter of thread `t`. -/
def setPc (s : ConcState) (t : Bool) (n : Nat) : ConcState :=
  if t then { s with pcT := n } else { s with pcF := n }

/-- One atomic step of thread `t`, mirroring `loadTexture` line by line:
the lock acquisition succeeds only when no one holds the lock (otherwise
the thread is blocked: no step), the seek and the callback happen while
holding it, and the release ends the call. `none` means `t` cannot move. -/
def concStep (s : ConcState) (t : Bool) : Option ConcState :=
  if pcOf s t = 0 then
    match s.lockOwner with
    | none => some (setPc { s with lockOwner := some t } t 1)
    | some _ => none
  else if pcOf s t = 1 then some (setPc s t 2)
  else if pcOf s t = 2 then some (setPc s t 3)
  else if pcOf s t = 3 then some (setPc { s with lockOwner := none } t 4)
  else none

/-- Run a schedule (the list of thread names, in the order they move) from
the initial state where both calls are about to acquire the lock. -/
def concRun (ms : List Bool) : Option ConcState :=
  ms.foldlM concStep { lockOwner := none, pcF := 0, pcT := 0 }

/-- Lock invariant: a thread between its lock acquisition and its release
(program counter 1, 2 or 3) is the lock owner. -/
def LockInv (s : ConcState) : Prop :=
  ∀ t : Bool, 1 ≤ pcOf s t ∧ pcOf s t ≤ 3 → s.lockOwner = some t

/-! Stream-decoding lemmas: reading back what the documented format wrote. -/

theorem readBytes_append (mid : List Nat) :
    ∀ (pre rest : List Nat) (e : Bool),
      readBytes mid.length { data := pre ++ mid ++ rest, pos := pre.length, err := e }
        = (mid, { data := pre ++ mid ++ rest, pos := pre.length + mid.length, err := e }) := by
  induction mid with
  | nil => intro pre rest e; simp [readBytes]
  | cons b mid ih =>
    intro pre rest e
    have hb : (pre ++ (b :: mid) ++ rest).getD pre.length 0 = b := by
      rw [List.append_assoc, List.getD_append_right _ _ _ _ le_rfl]
      simp
    have harr : pre ++ (b :: mid) ++ rest = (pre ++ [b]) ++ mid ++ rest := by
      simp
    have hlen : (pre ++ [b]).length = pre.length + 1 := by simp
    simp only [List.length_cons, readBytes, readByte, hb]
    rw [harr, ← hlen, ih (pre ++ [b]) rest e]
    simp [hlen]
    omega

theorem encodeBe_length (w : Nat) : ∀ n, (encodeBe w n).length = w := by
  induction w with
  | zero => intro n; rfl
  | succ w ih => intro n; simp [encodeBe, ih]

theorem beVal_snoc (bs : List Nat) (b : Nat) :
    beVal (bs ++ [b]) = beVal bs * 256 + b := by
  simp [beVal, List.foldl_append]

theorem beVal_encodeBe (w : Nat) : ∀ n, beVal (encodeBe w n) = n % 256 ^ w := by
  induction w with
  | zero => intro n; simp [encodeBe, beVal, Nat.mod_one]
  | succ w ih =>
    intro n
    rw [encodeBe, beVal_snoc, ih]
    have h4 : (256 : Nat) ^ (w + 1) = 256 * 256 ^ w := by ring
    rw [h4, ← Nat.mod_mul_right_div_self n 256 (256 ^ w)]
    have h2 : n % (256 * 256 ^ w) % 256 = n % 256 :=
      Nat.mod_mod_of_dvd n (dvd_mul_right 256 (256 ^ w))
    rw [← h2]
    set m := n % (256 * 256 ^ w) with hm
    omega

theorem beVal_encodeBe_of_lt {w n : Nat} (h : n < 256 ^ w) :
    beVal (encodeBe w n) = n := by
  rw [beVal_encodeBe, Nat.mod_eq_of_lt h]

theorem getBe32_at (pre rest : List Nat) (n : Nat) (e : Bool) (h : n < 2 ^ 32) :
    getBe32 { data := pre ++ encodeBe 4 n ++ rest, pos := pre.length, err := e }
      = (n, { data := pre ++ encodeBe 4 n ++ rest, pos := pre.length + 4, err := e }) := by
  have hl : (encodeBe 4 n).length = 4 := encodeBe_length 4 n
  have hv : beVal (encodeBe 4 n) = n := beVal_encodeBe_of_lt (by norm_num at h ⊢; omega)
  have hr := readBytes_append (encodeBe 4 n) pre rest e
  rw [hl] at hr
  rw [List.append_assoc] at hr
  simp [getBe32, hr, hv]

theorem getBe64_at (pre rest : List Nat) (n : Nat) (e : Bool) (h : n < 2 ^ 64) :
    getBe64 { data := pre ++ encodeBe 8 n ++ rest, pos := pre.length, err := e }
      = (n, { data := pre ++ encodeBe 8 n ++ rest, pos := pre.length + 8, err := e }) := by
  have hl : (encodeBe 8 n).length = 8 := encodeBe_length 8 n
  have hv : beVal (encodeBe 8 n) = n := beVal_encodeBe_of_lt (by norm_num at h ⊢; omega)
  have hr := readBytes_append (encodeBe 8 n) pre rest e
  rw [hl] at hr
  rw [List.append_assoc] at hr
  simp [getBe64, hr, hv]

theorem getBe32_at' (D pre rest : List Nat) (n p : Nat) (e : Bool) (h : n < 2 ^ 32)
    (hD : D = pre ++ encodeBe 4 n ++ rest) (hp : p = pre.length) :
    getBe32 { data := D, pos := p, err := e }
      = (n, { data := D, pos := p + 4, err := e }) := by
  subst hD hp; exact getBe32_at pre rest n e h

theorem getBe64_at' (D pre rest : List Nat) (n p : Nat) (e : Bool) (h : n < 2 ^ 64)
    (hD : D = pre ++ encodeBe 8 n ++ rest) (hp : p = pre.length) :
    getBe64 { data := D, pos := p, err := e }
      = (n, { data := D, pos := p + 8, err := e }) := by
  subst hD hp; exact getBe64_at pre rest n e h

/-! Index lemmas: what the `emplace` loop builds. -/

theorem idxLookup_isSome (idx : List (Nat × Nat)) (k : Nat) :
    (idxLookup idx k).isSome = containsKey idx k := by
  induction idx with
  | nil => rfl
  | cons q idx ih =>
    by_cases h : q.1 = k
    · simp [idxLookup, containsKey, h]
    · simp only [idxLookup, containsKey] at ih ⊢
      rw [List.find?_cons_of_neg _ (by simp [h])]
      simp [ih, h]

theorem idxLookup_emplace (idx : List (Nat × Nat)) (j v k : Nat) :
    idxLookup (emplace idx j v) k =
      match idxLookup idx k with
      | some w => some w
      | none => if j = k then some v else none := by
  unfold emplace
  by_cases hc : containsKey idx j
  · rw [if_pos hc]
    cases hl : idxLookup idx k with
    | some w => rfl
    | none =>
      by_cases hjk : j = k
      · subst hjk
        have := idxLookup_isSome idx j
        rw [hl, hc] at this
        simp at this
      · simp [hjk]
  · rw [if_neg hc]
    rw [idxLookup, List.find?_append]
    cases hl : idx.find? (fun p => p.1 == k) with
    | some w => simp [idxLookup, hl]
    | none =>
      by_cases hjk : j = k
      · subst hjk; simp [idxLookup, hl]
      · simp [idxLookup, hl, List.find?_cons, hjk]

theorem idxLookup_buildIndex (rs : List (Nat × Nat)) :
    ∀ (idx : List (Nat × Nat)) (k : Nat),
      idxLookup (buildIndex idx rs) k =
        match idxLookup idx k with
        | some w => some w
        | none => (rs.find? (fun p => p.1 == k)).map (fun p => p.2) := by
  induction rs with
  | nil =>
    intro idx k
    cases hl : idxLookup idx k <;> simp [buildIndex, hl]
  | cons r rs ih =>
    intro idx k
    have hstep : buildIndex idx (r :: rs) = buildIndex (emplace idx r.1 r.2) rs := rfl
    rw [hstep, ih, idxLookup_emplace]
    cases hl : idxLookup idx k with
    | some w => simp
    | none =>
      by_cases hjk : r.1 = k
      · subst hjk; simp [List.find?_cons]
      · simp [List.find?_cons, hjk]

theorem containsKey_append_single (idx : List (Nat × Nat)) (j v k : Nat) :
    containsKey (idx ++ [(j, v)]) k = (containsKey idx k || (j == k)) := by
  simp [containsKey]

theorem buildIndex_nodup (rs : List (Nat × Nat)) :
    ∀ idx : List (Nat × Nat),
      (rs.map Prod.fst).Nodup →
      (∀ r ∈ rs, containsKey idx r.1 = false) →
      buildIndex idx rs = idx ++ rs := by
  induction rs with
  | nil => intro idx _ _; simp [buildIndex]
  | cons r rs ih =>
    intro idx hnd habs
    have hr : containsKey idx r.1 = false := habs r (List.mem_cons_self r rs)
    have hstep : buildIndex idx (r :: rs) = buildIndex (emplace idx r.1 r.2) rs := rfl
    have hem : emplace idx r.1 r.2 = idx ++ [(r.1, r.2)] := by
      rw [emplace, if_neg (by simp [hr])]
    have hnd' : (rs.map Prod.fst).Nodup := (List.nodup_cons.mp (by simpa using hnd)).2
    have hnotin : r.1 ∉ rs.map Prod.fst := (List.nodup_cons.mp (by simpa using hnd)).1
    rw [hstep, hem, ih (idx ++ [(r.1, r.2)]) hnd' ?_]
    · simp
    · intro q hq
      rw [containsKey_append_single]
      have h1 : containsKey idx q.1 = false := habs q (List.mem_cons_of_mem r hq)
      have h2 : r.1 ≠ q.1 := by
        intro hcontra
        exact hnotin (hcontra ▸ List.mem_map_of_mem Prod.fst hq)
      simp [h1, h2]

/-! Running `readIndex` / `start` on a stream in the documented format. -/

theorem readRecords_encode (rs : List (Nat × Nat)) :
    ∀ (idx : List (Nat × Nat)) (D pre rest : List Nat) (p : Nat) (e : Bool),
      (∀ r ∈ rs, r.1 < 2 ^ 32 ∧ r.2 < 2 ^ 64) →
      D = pre ++ encodeRecords rs ++ rest → p = pre.length →
      readRecords rs.length idx { data := D, pos := p, err := e }
        = (buildIndex idx rs, { data := D, pos := p + 12 * rs.length, err := e }) := by
  induction rs with
  | nil =>
    intro idx D pre rest p e _ hD hp
    simp [readRecords, buildIndex]
  | cons r rs ih =>
    intro idx D pre rest p e hb hD hp
    have hbr := hb r (List.mem_cons_self r rs)
    have h32 := getBe32_at' D pre (encodeBe 8 r.2 ++ (encodeRecords rs ++ rest)) r.1 p e
      hbr.1 (by rw [hD]; simp [encodeRecords, encodeRecord]) hp
    have h64 := getBe64_at' D (pre ++ encodeBe 4 r.1) (encodeRecords rs ++ rest) r.2 (p + 4) e
      hbr.2 (by rw [hD]; simp [encodeRecords, encodeRecord])
      (by simp [encodeBe_length, hp])
    have hih := ih (emplace idx r.1 r.2) D (pre ++ encodeRecord r) rest (p + 4 + 8) e
      (fun q hq => hb q (List.mem_cons_of_mem r hq))
      (by rw [hD]; simp [encodeRecords])
      (by simp only [List.length_append, encodeRecord, encodeBe_length, hp])
    simp only [List.length_cons, readRecords, h32, h64, hih]
    have hpos : p + 4 + 8 + 12 * rs.length = p + 12 * (rs.length + 1) := by omega
    rw [hpos]
    rfl

theorem readIndex_steps_true (l : TextureLoader) (ip cnt : Nat)
    (s1 s3 s4 s5 : SStream) (idx : List (Nat × Nat))
    (h1 : getBe64 l.mStream = (ip, s1))
    (h2 : getBe32 (sseek s1 ip) = (1, s3))
    (h3 : getBe32 s3 = (cnt, s4))
    (h4 : readRecords cnt l.mIndex s4 = (idx, s5)) :
    readIndex l = (true, { l with mStream := s5, mIndex := idx }) := by
  simp only [readIndex, h1, h2, h3, h4]
  simp

theorem readIndex_steps_false (l : TextureLoader) (ip v : Nat) (s1 s3 : SStream)
    (h1 : getBe64 l.mStream = (ip, s1))
    (h2 : getBe32 (sseek s1 ip) = (v, s3)) (hv : v ≠ 1) :
    readIndex l = (false, { l with mStream := s3 }) := by
  simp only [readIndex, h1, h2]
  simp [hv]

theorem start_steps_true (l : TextureLoader) (h : l.mStarted = false)
    (l1 : TextureLoader) (hri : readIndex { l with mStarted := true } = (true, l1)) :
    start l = (true, l1) := by
  simp only [start, h, Bool.false_eq_true, if_false, hri]
  simp

theorem start_steps_false (l : TextureLoader) (h : l.mStarted = false)
    (l1 : TextureLoader) (hri : readIndex { l with mStarted := true } = (false, l1)) :
    start l = (false, { l1 with mHasError := true }) := by
  simp only [start, h, Bool.false_eq_true, if_false, hri]

set_option maxHeartbeats 1600000 in
theorem start_mkInput_v1 (pad : List Nat) (rs : List (Nat × Nat))
    (hpad : 8 + pad.length < 2 ^ 64) (hlen : rs.length < 2 ^ 32)
    (hrs : ∀ r ∈ rs, r.1 < 2 ^ 32 ∧ r.2 < 2 ^ 64) :
    start (mkLoader (mkInput pad 1 rs)) =
      (true,
       { mStream := { data := (mkInput pad 1 rs).data,
                      pos := 8 + pad.length + 4 + 4 + 12 * rs.length, err := false },
         mIndex := buildIndex [] rs, mStarted := true, mHasError := false }) := by
  have h64 := getBe64_at' (mkInput pad 1 rs).data []
    (pad ++ (encodeBe 4 1 ++ encodeBe 4 rs.length ++ encodeRecords rs))
    (8 + pad.length) 0 false hpad (by simp [mkInput]) (by simp)
  have hver := getBe32_at' (mkInput pad 1 rs).data (encodeBe 8 (8 + pad.length) ++ pad)
    (encodeBe 4 rs.length ++ encodeRecords rs) 1 (8 + pad.length) false (by norm_num)
    (by simp [mkInput])
    (by simp only [List.length_append, encodeBe_length])
  have hcnt := getBe32_at' (mkInput pad 1 rs).data
    (encodeBe 8 (8 + pad.length) ++ pad ++ encodeBe 4 1)
    (encodeRecords rs) rs.length (8 + pad.length + 4) false hlen
    (by simp [mkInput])
    (by simp only [List.length_append, encodeBe_length])
  have hrecs := readRecords_encode rs [] (mkInput pad 1 rs).data
    (encodeBe 8 (8 + pad.length) ++ pad ++ encodeBe 4 1 ++ encodeBe 4 rs.length) []
    (8 + pad.length + 4 + 4) false hrs
    (by simp [mkInput])
    (by simp only [List.length_append, encodeBe_length])
  exact start_steps_true (mkLoader (mkInput pad 1 rs)) rfl _
    (readIndex_steps_true ⟨mkInput pad 1 rs, [], true, false⟩ (8 + pad.length) rs.length
      _ _ _ _ _ h64 hver hcnt hrecs)

set_option maxHeartbeats 1600000 in
theorem start_mkInput_vne (pad : List Nat) (v : Nat) (rs : List (Nat × Nat))
    (hv : v < 2 ^ 32) (hne : v ≠ 1) (hpad : 8 + pad.length < 2 ^ 64) :
    start (mkLoader (mkInput pad v rs)) =
      (false,
       { mStream := { data := (mkInput pad v rs).data,
                      pos := 8 + pad.length + 4, err := false },
         mIndex := [], mStarted := true, mHasError := true }) := by
  have h64 := getBe64_at' (mkInput pad v rs).data []
    (pad ++ (encodeBe 4 v ++ encodeBe 4 rs.length ++ encodeRecords rs))
    (8 + pad.length) 0 false hpad (by simp [mkInput]) (by simp)
  have hver := getBe32_at' (mkInput pad v rs).data (encodeBe 8 (8 + pad.length) ++ pad)
    (encodeBe 4 rs.length ++ encodeRecords rs) v (8 + pad.length) false hv
    (by simp [mkInput])
    (by simp only [List.length_append, encodeBe_length])
  exact start_steps_false (mkLoader (mkInput pad v rs)) rfl _
    (readIndex_steps_false ⟨mkInput pad v rs, [], true, false⟩ (8 + pad.length) v
      _ _ h64 hver hne)

/-! General facts about `start`, `readIndex` and `loadTexture`. -/

theorem start_of_started (l : TextureLoader) (h : l.mStarted = true) :
    start l = (!l.mHasError, l) := by
  simp only [start, h, if_true]

theorem readIndex_false_mIndex (l : TextureLoader) :
    (readIndex l).1 = false → (readIndex l).2.mIndex = l.mIndex := by
  rcases hg : getBe64 l.mStream with ⟨ip, s1⟩
  rcases hv : getBe32 (sseek s1 ip) with ⟨v, s3⟩
  by_cases h1 : v = 1
  · subst h1
    rcases hc : getBe32 s3 with ⟨cnt, s4⟩
    rcases hr : readRecords cnt l.mIndex s4 with ⟨idx, s5⟩
    have heq := readIndex_steps_true l ip cnt s1 s3 s4 s5 idx hg hv hc hr
    rw [heq]
    intro hfalse
    simp at hfalse
  · have heq := readIndex_steps_false l ip v s1 s3 hg hv h1
    rw [heq]
    intro _
    rfl

theorem readIndex_flags (l : TextureLoader) :
    (readIndex l).2.mStarted = l.mStarted ∧ (readIndex l).2.mHasError = l.mHasError := by
  rcases hg : getBe64 l.mStream with ⟨ip, s1⟩
  rcases hv : getBe32 (sseek s1 ip) with ⟨v, s3⟩
  by_cases h1 : v = 1
  · subst h1
    rcases hc : getBe32 s3 with ⟨cnt, s4⟩
    rcases hr : readRecords cnt l.mIndex s4 with ⟨idx, s5⟩
    rw [readIndex_steps_true l ip cnt s1 s3 s4 s5 idx hg hv hc hr]
    exact ⟨rfl, rfl⟩
  · rw [readIndex_steps_false l ip v s1 s3 hg hv h1]
    exact ⟨rfl, rfl⟩

theorem start_fresh (s : SStream) :
    start (mkLoader s) =
      (if (readIndex ⟨s, [], true, false⟩).1 then (true, (readIndex ⟨s, [], true, false⟩).2)
       else (false, { (readIndex ⟨s, [], true, false⟩).2 with mHasError := true })) := by
  rcases h : readIndex ⟨s, [], true, false⟩ with ⟨res, l1⟩
  cases res
  · rw [start_steps_false (mkLoader s) rfl l1 h]
    simp
  · rw [start_steps_true (mkLoader s) rfl l1 h]
    simp

theorem start_fresh_outcome (s : SStream) :
    (start (mkLoader s)).1 = !(start (mkLoader s)).2.mHasError ∧
    (start (mkLoader s)).2.mStarted = true := by
  have hf := readIndex_flags ⟨s, [], true, false⟩
  rw [start_fresh s]
  by_cases h : (readIndex ⟨s, [], true, false⟩).1 = true
  · simp only [h, if_true]
    exact ⟨by rw [hf.2]; rfl, hf.1⟩
  · have h' : (readIndex ⟨s, [], true, false⟩).1 = false := by
      revert h; cases (readIndex ⟨s, [], true, false⟩).1 <;> simp
    simp only [h', Bool.false_eq_true, if_false]
    exact ⟨rfl, hf.1⟩

theorem start_false_mIndex (s : SStream) :
    (start (mkLoader s)).1 = false → (start (mkLoader s)).2.mIndex = [] := by
  rw [start_fresh s]
  by_cases h : (readIndex ⟨s, [], true, false⟩).1 = true
  · simp [h]
  · have h' : (readIndex ⟨s, [], true, false⟩).1 = false := by
      revert h; cases (readIndex ⟨s, [], true, false⟩).1 <;> simp
    simp only [h', Bool.false_eq_true, if_false]
    intro _
    have := readIndex_false_mIndex ⟨s, [], true, false⟩ h'
    simpa using this

theorem containsKey_of_lookup {idx : List (Nat × Nat)} {k o : Nat}
    (h : idxLookup idx k = some o) : containsKey idx k = true := by
  rw [← idxLookup_isSome, h]
  rfl

theorem loadTexture_present (l : TextureLoader) (t o : Nat) (f : SStream → SStream)
    (h : idxLookup l.mIndex t = some o) :
    loadTexture l t f =
      (LoadOutcome.returned,
       { l with mStream := f (sseek l.mStream o),
                mHasError := l.mHasError || (f (sseek l.mStream o)).err },
       [LoadEvent.lockAcquire, LoadEvent.seekTo o,
        LoadEvent.callbackAt o, LoadEvent.lockRelease]) := by
  have hc := containsKey_of_lookup h
  simp [loadTexture, hc, h, sseek]

theorem loadTexture_preserves (l : TextureLoader) (t : Nat) (f : SStream → SStream) :
    (loadTexture l t f).2.1.mStarted = l.mStarted ∧
    (loadTexture l t f).2.1.mIndex = l.mIndex := by
  by_cases h : containsKey l.mIndex t <;> simp [loadTexture, h]

theorem runLoads_preserves (ops : List (Nat × (SStream → SStream))) :
    ∀ l : TextureLoader,
      (runLoads l ops).mStarted = l.mStarted ∧ (runLoads l ops).mIndex = l.mIndex := by
  induction ops with
  | nil => intro l; exact ⟨rfl, rfl⟩
  | cons op ops ih =>
    intro l
    have hstep := loadTexture_preserves l op.1 op.2
    have hrest := ih (loadTexture l op.1 op.2).2.1
    exact ⟨by rw [runLoads] at *; simpa [hstep.1] using hrest.1,
           by rw [runLoads] at *; simpa [hstep.2] using hrest.2⟩

theorem readBytes_state (k : Nat) :
    ∀ s : SStream, (readBytes k s).2 = { s with pos := s.pos + k } := by
  induction k with
  | zero => intro s; rfl
  | succ k ih =>
    intro s
    simp only [readBytes, readByte, ih]
    simp
    omega

theorem readBytes_fst_err (k : Nat) :
    ∀ (d : List Nat) (p : Nat) (e e' : Bool),
      (readBytes k { data := d, pos := p, err := e }).1
        = (readBytes k { data := d, pos := p, err := e' }).1 := by
  induction k with
  | zero => intro d p e e'; rfl
  | succ k ih =>
    intro d p e e'
    simp only [readBytes, readByte]
    rw [ih d (p + 1) e e']

/-! Lock invariant of the two-thread interleaving model. -/

theorem pcOf_setPc_same (s : ConcState) (t : Bool) (n : Nat) :
    pcOf (setPc s t n) t = n := by
  cases t <;> simp [pcOf, setPc]

theorem pcOf_setPc_other (s : ConcState) (t u : Bool) (n : Nat) (h : u ≠ t) :
    pcOf (setPc s t n) u = pcOf s u := by
  cases t <;> cases u <;> simp_all [pcOf, setPc]

theorem lockOwner_setPc (s : ConcState) (t : Bool) (n : Nat) :
    (setPc s t n).lockOwner = s.lockOwner := by
  cases t <;> simp [setPc]

theorem concStep_inv {s s' : ConcState} {t : Bool} (hinv : LockInv s)
    (hstep : concStep s t = some s') : LockInv s' := by
  unfold concStep at hstep
  by_cases h0 : pcOf s t = 0
  · rw [if_pos h0] at hstep
    rcases ho : s.lockOwner with _ | w
    · rw [ho] at hstep
      injection hstep with hs'
      subst hs'
      intro u hu
      by_cases hut : u = t
      · subst hut
        rw [lockOwner_setPc]
      · rw [pcOf_setPc_other _ _ _ _ hut] at hu
        have := hinv u hu
        rw [ho] at this
        cases this
    · rw [ho] at hstep
      cases hstep
  · rw [if_neg h0] at hstep
    by_cases h1 : pcOf s t = 1
    · rw [if_pos h1] at hstep
      injection hstep with hs'
      subst hs'
      have hown : s.lockOwner = some t := hinv t (by omega)
      intro u hu
      rw [lockOwner_setPc]
      by_cases hut : u = t
      · subst hut; exact hown
      · rw [pcOf_setPc_other _ _ _ _ hut] at hu
        exact hinv u hu
    · rw [if_neg h1] at hstep
      by_cases h2 : pcOf s t = 2
      · rw [if_pos h2] at hstep
        injection hstep with hs'
        subst hs'
        have hown : s.lockOwner = some t := hinv t (by omega)
        intro u hu
        rw [lockOwner_setPc]
        by_cases hut : u = t
        · subst hut; exact hown
        · rw [pcOf_setPc_other _ _ _ _ hut] at hu
          exact hinv u hu
      · rw [if_neg h2] at hstep
        by_cases h3 : pcOf s t = 3
        · rw [if_pos h3] at hstep
          injection hstep with hs'
          subst hs'
          have hown : s.lockOwner = some t := hinv t (by omega)
          intro u hu
          by_cases hut : u = t
          · subst hut
            rw [pcOf_setPc_same] at hu
            omega
          · rw [pcOf_setPc_other _ _ _ _ hut] at hu
            have := hinv u hu
            rw [hown] at this
            injection this with hw
            exact absurd hw.symm hut
        · rw [if_neg h3] at hstep
          cases hstep

theorem concRun_inv (ms : List Bool) :
    ∀ s0 : ConcState, LockInv s0 →
      ∀ s : ConcState, List.foldlM concStep s0 ms = some s → LockInv s := by
  induction ms with
  | nil =>
    intro s0 h s hrun
    simp only [List.foldlM] at hrun
    injection hrun with hs
    subst hs
    exact h
  | cons t ms ih =>
    intro s0 h s hrun
    rcases hstep : concStep s0 t with _ | s1
    · simp [List.foldlM, hstep] at hrun
    · simp only [List.foldlM, hstep, Option.bind] at hrun
      exact ih s1 (concStep_inv h hstep) s hrun


/-! Claim theorems. -/

/-- C1: Round-trip — for every well-formed index section (version 1,
count `rs.length`, records with pairwise-distinct texture ids) presented
through the backing stream, `start` succeeds and the resulting Index maps
exactly each texture id of the input to its file offset, with no extra or
missing entries (the index equals the input record list). -/
theorem C1_round_trip (pad : List Nat) (rs : List (Nat × Nat))
    (hpad : 8 + pad.length < 2 ^ 64) (hlen : rs.length < 2 ^ 32)
    (hrs : ∀ r ∈ rs, r.1 < 2 ^ 32 ∧ r.2 < 2 ^ 64)
    (hnd : (rs.map Prod.fst).Nodup) :
    (start (mkLoader (mkInput pad 1 rs))).1 = true ∧
    (start (mkLoader (mkInput pad 1 rs))).2.mIndex = rs := by
  rw [start_mkInput_v1 pad rs hpad hlen hrs]
  refine ⟨rfl, ?_⟩
  have h := buildIndex_nodup rs [] hnd (fun r _ => rfl)
  simpa using h

/-- Witness for C1 at a concrete two-record input. -/
theorem C1_round_trip_witness :
    (start (mkLoader (mkInput [] 1 [(7, 100), (9, 200)]))).1 = true ∧
    (start (mkLoader (mkInput [] 1 [(7, 100), (9, 200)]))).2.mIndex
      = [(7, 100), (9, 200)] :=
  C1_round_trip [] [(7, 100), (9, 200)] (by decide) (by decide) (by decide) (by decide)

/-- C2 counterexample: with two records carrying the same texture id 5
(first offset 100, last offset 200), `start` succeeds but the Index maps
5 to 100, the FIRST record's offset — not to the last one's, because
`emplace` does not overwrite an existing key. The claim's last-write-wins
policy is false on the code. -/
theorem C2_counterexample :
    (start (mkLoader (mkInput [] 1 [(5, 100), (5, 200)]))).1 = true ∧
    idxLookup (start (mkLoader (mkInput [] 1 [(5, 100), (5, 200)]))).2.mIndex 5
      = some 100 ∧
    ¬ idxLookup (start (mkLoader (mkInput [] 1 [(5, 100), (5, 200)]))).2.mIndex 5
        = some 200 := by
  decide

/-- C2 amended: for every index section (duplicates allowed), after a
successful `start` the Index maps each texture id to the file offset of
the FIRST record with that id in stream order (first write wins). -/
theorem C2_first_write_wins (pad : List Nat) (rs : List (Nat × Nat)) (k : Nat)
    (hpad : 8 + pad.length < 2 ^ 64) (hlen : rs.length < 2 ^ 32)
    (hrs : ∀ r ∈ rs, r.1 < 2 ^ 32 ∧ r.2 < 2 ^ 64) :
    (start (mkLoader (mkInput pad 1 rs))).1 = true ∧
    idxLookup (start (mkLoader (mkInput pad 1 rs))).2.mIndex k
      = (rs.find? (fun p => p.1 == k)).map (fun p => p.2) := by
  rw [start_mkInput_v1 pad rs hpad hlen hrs]
  refine ⟨rfl, ?_⟩
  have h := idxLookup_buildIndex rs [] k
  simpa [idxLookup] using h

/-- Witness for the amended C2 at the duplicate-key input. -/
theorem C2_first_write_wins_witness :
    (start (mkLoader (mkInput [] 1 [(5, 100), (5, 200)]))).1 = true ∧
    idxLookup (start (mkLoader (mkInput [] 1 [(5, 100), (5, 200)]))).2.mIndex 5
      = ([(5, 100), (5, 200)].find? (fun p => p.1 == 5)).map (fun p => p.2) :=
  C2_first_write_wins [] [(5, 100), (5, 200)] 5 (by decide) (by decide) (by decide)

/-- C3 counterexample: on a Ready loader whose Index lacks id 5, the
`loadTexture` call does not return a recoverable UnknownTextureId error —
no such error kind exists in the code; the call dies on
`assert(mIndex.count(texId))` and never returns to its caller. -/
theorem C3_counterexample :
    Ready demoLoader ∧
    containsKey demoLoader.mIndex 5 = false ∧
    (loadTexture demoLoader 5 (fun s => s)).1 = LoadOutcome.assertFailed ∧
    (loadTexture demoLoader 5 (fun s => s)).1 ≠ LoadOutcome.returned := by
  decide

/-- C3 amended: for every Ready loader and texture id absent from the
Index, `loadTexture` fails the assertion (aborts) rather than returning an
UnknownTextureId error; it performs no seek, does not invoke the callback,
and leaves the loader unchanged. -/
theorem C3_unknown_key_asserts (l : TextureLoader) (texId : Nat)
    (f : SStream → SStream) (_hr : Ready l)
    (habs : containsKey l.mIndex texId = false) :
    loadTexture l texId f
      = (LoadOutcome.assertFailed, l, [LoadEvent.lockAcquire]) := by
  simp [loadTexture, habs]

/-- Witness for the amended C3 on the Ready demo loader. -/
theorem C3_unknown_key_asserts_witness :
    loadTexture demoLoader 5 (fun s => s)
      = (LoadOutcome.assertFailed, demoLoader, [LoadEvent.lockAcquire]) :=
  C3_unknown_key_asserts demoLoader 5 (fun s => s) (by decide) (by decide)

/-- C4 counterexample: after a failed initialization (version 2), a
subsequent `loadTexture` does not fail with NotReady — the code has no
readiness check; with the empty Index the call dies on the missing-key
assertion instead of returning an error to its caller. -/
theorem C4_counterexample :
    failedLoader.mStarted = true ∧
    failedLoader.mHasError = true ∧
    (loadTexture failedLoader 7 (fun s => s)).1 = LoadOutcome.assertFailed ∧
    (loadTexture failedLoader 7 (fun s => s)).1 ≠ LoadOutcome.returned := by
  decide

/-- C4 amended: `loadTexture` performs no readiness check. On a loader
whose initialization was never called, and likewise after a failed
initialization, the Index is empty, so every load fails the missing-key
assertion (abort, no seek, no callback) — not a NotReady error. -/
theorem C4_not_ready_asserts (s : SStream) (texId : Nat) (f : SStream → SStream) :
    loadTexture (mkLoader s) texId f
        = (LoadOutcome.assertFailed, mkLoader s, [LoadEvent.lockAcquire]) ∧
    ((start (mkLoader s)).1 = false →
      loadTexture (start (mkLoader s)).2 texId f
        = (LoadOutcome.assertFailed, (start (mkLoader s)).2,
           [LoadEvent.lockAcquire])) := by
  constructor
  · simp [loadTexture, mkLoader, containsKey]
  · intro hf
    have hidx := start_false_mIndex s hf
    simp [loadTexture, hidx, containsKey]

/-- Witness for the amended C4: a fresh loader and a failed one. -/
theorem C4_not_ready_asserts_witness :
    loadTexture (mkLoader (mkInput [] 2 [(7, 100)])) 7 (fun s => s)
        = (LoadOutcome.assertFailed, mkLoader (mkInput [] 2 [(7, 100)]),
           [LoadEvent.lockAcquire]) ∧
    loadTexture (start (mkLoader (mkInput [] 2 [(7, 100)]))).2 7 (fun s => s)
        = (LoadOutcome.assertFailed, (start (mkLoader (mkInput [] 2 [(7, 100)]))).2,
           [LoadEvent.lockAcquire]) :=
  ⟨(C4_not_ready_asserts (mkInput [] 2 [(7, 100)]) 7 (fun s => s)).1,
   (C4_not_ready_asserts (mkInput [] 2 [(7, 100)]) 7 (fun s => s)).2 (by decide)⟩


/-- C5 counterexample: after a successful first `start` (outcome true), a
`loadTexture` whose callback leaves the stream error indicator set flips
`mHasError`; the second `start` then returns false — a different outcome
from the first call, refuting unconditional idempotence. -/
theorem C5_counterexample :
    (start (mkLoader demoInput)).1 = true ∧
    (start (runLoads (start (mkLoader demoInput)).2 [(7, setErr)])).1 = false := by
  decide

/-- C5 amended: once `start` has run, every later `start` performs no
stream I/O and returns the loader unchanged with outcome `!mHasError`;
that outcome equals the first call's outcome provided no intervening
`loadTexture` changed the sticky error flag. -/
theorem C5_repeat_start (s : SStream)
    (ops : List (Nat × (SStream → SStream))) :
    start (runLoads (start (mkLoader s)).2 ops)
        = (!(runLoads (start (mkLoader s)).2 ops).mHasError,
           runLoads (start (mkLoader s)).2 ops) ∧
    ((runLoads (start (mkLoader s)).2 ops).mHasError
        = (start (mkLoader s)).2.mHasError →
      (start (runLoads (start (mkLoader s)).2 ops)).1 = (start (mkLoader s)).1) := by
  have hst := (start_fresh_outcome s).2
  have hrun := (runLoads_preserves ops (start (mkLoader s)).2).1
  have h2 : (runLoads (start (mkLoader s)).2 ops).mStarted = true := by
    rw [hrun, hst]
  refine ⟨start_of_started _ h2, ?_⟩
  intro heq
  rw [start_of_started _ h2]
  show (!(runLoads (start (mkLoader s)).2 ops).mHasError) = (start (mkLoader s)).1
  rw [heq]
  exact ((start_fresh_outcome s).1).symm

/-- Witness for the amended C5 with an empty load sequence. -/
theorem C5_repeat_start_witness :
    start (runLoads (start (mkLoader demoInput)).2 [])
        = (!(runLoads (start (mkLoader demoInput)).2 []).mHasError,
           runLoads (start (mkLoader demoInput)).2 []) ∧
    (start (runLoads (start (mkLoader demoInput)).2 [])).1
        = (start (mkLoader demoInput)).1 :=
  ⟨(C5_repeat_start demoInput []).1,
   (C5_repeat_start demoInput []).2 (by decide)⟩

/-- C6: Version gate — for every index section whose version field is not
1, `start` fails, reads no index records (the stream stops 4 bytes into
the section, the Index stays empty), the failure is recorded
(`mStarted`, `mHasError`), and a repeat `start` fails again with no state
change. -/
theorem C6_version_gate (pad : List Nat) (v : Nat) (rs : List (Nat × Nat))
    (hv : v < 2 ^ 32) (hne : v ≠ 1) (hpad : 8 + pad.length < 2 ^ 64) :
    (start (mkLoader (mkInput pad v rs))).1 = false ∧
    (start (mkLoader (mkInput pad v rs))).2.mIndex = [] ∧
    (start (mkLoader (mkInput pad v rs))).2.mStarted = true ∧
    (start (mkLoader (mkInput pad v rs))).2.mHasError = true ∧
    (start (mkLoader (mkInput pad v rs))).2.mStream.pos = 8 + pad.length + 4 ∧
    start (start (mkLoader (mkInput pad v rs))).2
      = (false, (start (mkLoader (mkInput pad v rs))).2) := by
  rw [start_mkInput_vne pad v rs hv hne hpad]
  refine ⟨rfl, rfl, rfl, rfl, rfl, ?_⟩
  rw [start_of_started _ rfl]
  rfl

/-- Witness for C6 with version 2. -/
theorem C6_version_gate_witness :
    (start (mkLoader (mkInput [] 2 [(7, 100)]))).1 = false ∧
    (start (mkLoader (mkInput [] 2 [(7, 100)]))).2.mIndex = [] ∧
    (start (mkLoader (mkInput [] 2 [(7, 100)]))).2.mStarted = true ∧
    (start (mkLoader (mkInput [] 2 [(7, 100)]))).2.mHasError = true ∧
    (start (mkLoader (mkInput [] 2 [(7, 100)]))).2.mStream.pos
      = 8 + ([] : List Nat).length + 4 ∧
    start (start (mkLoader (mkInput [] 2 [(7, 100)]))).2
      = (false, (start (mkLoader (mkInput [] 2 [(7, 100)]))).2) :=
  C6_version_gate [] 2 [(7, 100)] (by decide) (by decide) (by decide)

/-- C7 counterexample: a `loadTexture` call whose callback sets the
stream's error indicator does not report any failure to its caller — the
function returns void (`returned`); it only records the sticky
`mHasError` flag. -/
theorem C7_counterexample :
    (loadTexture demoLoader 7 setErr).1 = LoadOutcome.returned ∧
    (loadTexture demoLoader 7 setErr).2.1.mHasError = true := by
  decide

/-- C7 amended: a load after which the stream error indicator is set
returns normally (no per-call error value) and records the sticky
`mHasError` flag; a subsequent load for another id present in the Index
is still attempted in full — it seeks to that id's offset and invokes its
callback there (the flag blocks nothing and the Index survives). -/
theorem C7_sticky_error_flag (l : TextureLoader) (t1 t2 o1 o2 : Nat)
    (f1 f2 : SStream → SStream)
    (h1 : idxLookup l.mIndex t1 = some o1)
    (h2 : idxLookup l.mIndex t2 = some o2)
    (herr : (f1 (sseek l.mStream o1)).err = true) :
    (loadTexture l t1 f1).1 = LoadOutcome.returned ∧
    (loadTexture l t1 f1).2.1.mHasError = true ∧
    (loadTexture (loadTexture l t1 f1).2.1 t2 f2).1 = LoadOutcome.returned ∧
    (loadTexture (loadTexture l t1 f1).2.1 t2 f2).2.2
      = [LoadEvent.lockAcquire, LoadEvent.seekTo o2,
         LoadEvent.callbackAt o2, LoadEvent.lockRelease] := by
  have hL1 := loadTexture_present l t1 o1 f1 h1
  have h2' : idxLookup (loadTexture l t1 f1).2.1.mIndex t2 = some o2 := by
    rw [hL1]; exact h2
  have hL2 := loadTexture_present (loadTexture l t1 f1).2.1 t2 o2 f2 h2'
  refine ⟨by rw [hL1], ?_, by rw [hL2], by rw [hL2]⟩
  rw [hL1]
  simp [herr]

/-- Witness for the amended C7 on the demo loader. -/
theorem C7_sticky_error_flag_witness :
    (loadTexture demoLoader 7 setErr).1 = LoadOutcome.returned ∧
    (loadTexture demoLoader 7 setErr).2.1.mHasError = true ∧
    (loadTexture (loadTexture demoLoader 7 setErr).2.1 9 (fun s => s)).1
      = LoadOutcome.returned ∧
    (loadTexture (loadTexture demoLoader 7 setErr).2.1 9 (fun s => s)).2.2
      = [LoadEvent.lockAcquire, LoadEvent.seekTo 200,
         LoadEvent.callbackAt 200, LoadEvent.lockRelease] :=
  C7_sticky_error_flag demoLoader 7 9 100 200 setErr (fun s => s)
    (by decide) (by decide) (by decide)


/-- C8: Seek positioning — on a Ready loader, a load of a texture id
present in the Index seeks the stream to exactly the recorded offset and
invokes the callback exactly once, with the stream positioned there (the
full call: lock, seek to `o`, callback observing position `o`, unlock;
the new stream is the callback's output on the positioned stream). -/
theorem C8_seek_positioning (l : TextureLoader) (t o : Nat)
    (f : SStream → SStream) (_hr : Ready l)
    (h : idxLookup l.mIndex t = some o) :
    loadTexture l t f =
      (LoadOutcome.returned,
       { l with mStream := f (sseek l.mStream o),
                mHasError := l.mHasError || (f (sseek l.mStream o)).err },
       [LoadEvent.lockAcquire, LoadEvent.seekTo o,
        LoadEvent.callbackAt o, LoadEvent.lockRelease]) ∧
    ((loadTexture l t f).2.2.countP (fun e =>
        match e with
        | LoadEvent.callbackAt _ => true
        | _ => false)) = 1 := by
  have hp := loadTexture_present l t o f h
  refine ⟨hp, ?_⟩
  rw [hp]
  rfl

/-- Witness for C8 on the demo loader (id 7 at offset 100). -/
theorem C8_seek_positioning_witness :
    loadTexture demoLoader 7 (fun s => s) =
      (LoadOutcome.returned,
       { demoLoader with
           mStream := sseek demoLoader.mStream 100,
           mHasError := demoLoader.mHasError || (sseek demoLoader.mStream 100).err },
       [LoadEvent.lockAcquire, LoadEvent.seekTo 100,
        LoadEvent.callbackAt 100, LoadEvent.lockRelease]) ∧
    ((loadTexture demoLoader 7 (fun s => s)).2.2.countP (fun e =>
        match e with
        | LoadEvent.callbackAt _ => true
        | _ => false)) = 1 :=
  C8_seek_positioning demoLoader 7 100 (fun s => s) (by decide) (by decide)

/-! Error-flag independence of the readers, for C9. -/

theorem getBe64_snd (s : SStream) : (getBe64 s).2 = { s with pos := s.pos + 8 } := by
  simp only [getBe64]
  rcases h : readBytes 8 s with ⟨bs, s1⟩
  have hst := readBytes_state 8 s
  rw [h] at hst
  simpa using hst

theorem getBe64_fst_err (d : List Nat) (p : Nat) (e e' : Bool) :
    (getBe64 { data := d, pos := p, err := e }).1
      = (getBe64 { data := d, pos := p, err := e' }).1 := by
  have hb := readBytes_fst_err 8 d p e e'
  simp only [getBe64]
  rcases hA : readBytes 8 { data := d, pos := p, err := e } with ⟨bsA, sA⟩
  rcases hB : readBytes 8 { data := d, pos := p, err := e' } with ⟨bsB, sB⟩
  rw [hA, hB] at hb
  simpa using congrArg beVal hb

theorem getBe32_fst_err (d : List Nat) (p : Nat) (e e' : Bool) :
    (getBe32 { data := d, pos := p, err := e }).1
      = (getBe32 { data := d, pos := p, err := e' }).1 := by
  have hb := readBytes_fst_err 4 d p e e'
  simp only [getBe32]
  rcases hA : readBytes 4 { data := d, pos := p, err := e } with ⟨bsA, sA⟩
  rcases hB : readBytes 4 { data := d, pos := p, err := e' } with ⟨bsB, sB⟩
  rw [hA, hB] at hb
  simpa using congrArg beVal hb

/-- Initialization outcome depends only on the decoded version field:
`start` succeeds iff the 4 bytes at the trailer-pointed offset decode
to 1. No other condition — not the error indicator, not truncation —
affects the outcome. -/
theorem start_version_only (s : SStream) :
    (start (mkLoader s)).1
      = ((getBe32 (sseek (getBe64 s).2 (getBe64 s).1)).1 == 1) := by
  rcases hg : getBe64 s with ⟨ip, s1⟩
  rcases hv : getBe32 (sseek s1 ip) with ⟨v, s3⟩
  rw [start_fresh s]
  by_cases hv1 : v = 1
  · subst hv1
    rcases hc : getBe32 s3 with ⟨cnt, s4⟩
    rcases hr : readRecords cnt [] s4 with ⟨idx, s5⟩
    rw [readIndex_steps_true ⟨s, [], true, false⟩ ip cnt s1 s3 s4 s5 idx hg hv hc hr]
    simp
  · rw [readIndex_steps_false ⟨s, [], true, false⟩ ip v s1 s3 hg hv hv1]
    have hb : (v == 1) = false := beq_eq_false_iff_ne.mpr hv1
    simp [hb]

/-- C9 counterexample: a truncated stream (trailer pointer, version 1,
declared count 2, but only one record's bytes) makes `start` return
success, with a garbage entry (0, 0) in the Index — not the failure the
claim requires for an I/O-level error such as truncation. -/
theorem C9_counterexample :
    (start (mkLoader truncInput)).1 = true ∧
    (start (mkLoader truncInput)).2.mIndex = [(7, 100), (0, 0)] := by
  decide

/-- C9 amended: initialization reports failure only for an unsupported
version: the outcome of `start` is exactly the version test on the 4
bytes at the pointed-to offset, and it does not depend on the stream's
error indicator; truncated reads silently deliver filler values. -/
theorem C9_no_error_checking (s : SStream) :
    (start (mkLoader s)).1
      = ((getBe32 (sseek (getBe64 s).2 (getBe64 s).1)).1 == 1) ∧
    ∀ e : Bool,
      (start (mkLoader { data := s.data, pos := s.pos, err := e })).1
        = (start (mkLoader s)).1 := by
  refine ⟨start_version_only s, ?_⟩
  intro e
  rw [start_version_only, start_version_only]
  rw [getBe64_snd, getBe64_snd]
  have hip : (getBe64 { data := s.data, pos := s.pos, err := e }).1 = (getBe64 s).1 :=
    getBe64_fst_err s.data s.pos e s.err
  rw [hip]
  show ((getBe32 { data := s.data, pos := (getBe64 s).1, err := e }).1 == 1)
      = ((getBe32 { data := s.data, pos := (getBe64 s).1, err := s.err }).1 == 1)
  rw [getBe32_fst_err s.data ((getBe64 s).1) e s.err]

/-- C10: Mutual exclusion of loads — in every reachable state of the
two-thread interleaving of `loadTexture` calls, while one thread is
inside its seek-then-callback critical section (it acquired `mLock` and
has not released it), the other thread can take no step at all — it can
neither acquire the lock nor seek nor run its callback — so the two
seek-then-callback sequences never interleave. -/
theorem C10_lock_mutual_exclusion (ms : List Bool) (s : ConcState) (t u : Bool)
    (hrun : concRun ms = some s) (htu : u ≠ t)
    (hcrit : 1 ≤ pcOf s t ∧ pcOf s t ≤ 3) :
    concStep s u = none ∧ ¬(1 ≤ pcOf s u ∧ pcOf s u ≤ 3) := by
  have hinv : LockInv s := by
    refine concRun_inv ms ⟨none, 0, 0⟩ ?_ s hrun
    intro t' ht'
    cases t' <;> simp [pcOf] at ht'
  have howner : s.lockOwner = some t := hinv t hcrit
  have hnotu : ¬(1 ≤ pcOf s u ∧ pcOf s u ≤ 3) := by
    intro hc
    have h2 := hinv u hc
    rw [howner] at h2
    injection h2 with h3
    exact htu h3.symm
  refine ⟨?_, hnotu⟩
  unfold concStep
  by_cases h0 : pcOf s u = 0
  · rw [if_pos h0, howner]
  · rw [if_neg h0]
    have h1 : pcOf s u ≠ 1 := fun hh => hnotu (by omega)
    have h2 : pcOf s u ≠ 2 := fun hh => hnotu (by omega)
    have h3 : pcOf s u ≠ 3 := fun hh => hnotu (by omega)
    rw [if_neg h1, if_neg h2, if_neg h3]

/-- Witness for C10: thread `false` has acquired the lock (its program
counter is 1, before its seek); thread `true` is fully blocked. -/
theorem C10_lock_mutual_exclusion_witness :
    concStep ⟨some false, 1, 0⟩ true = none ∧
    ¬(1 ≤ pcOf ⟨some false, 1, 0⟩ true ∧ pcOf ⟨some false, 1, 0⟩ true ≤ 3) :=
  C10_lock_mutual_exclusion [false] ⟨some false, 1, 0⟩ false true
    (by decide) (by decide) (by decide)


end TextureSnap
